import Mathlib

/-!
A shallow embedding of the structured-file-reader parse engine
(`Parser.Parse`, `RecordDefinition`, the record readers and field types, and
the schema loader) together with theorems about the claims of its
specification.

Records are heap-allocated and mutated through pointers in the Go source
(`lastRecords map[string]*Record`, `splitRec *Record`, `parent.Children =
append(...)`).  The embedding therefore threads an explicit state whose
`heap` is a list of record data indexed by allocation order; a `Nat` index
plays the role of a `*Record` pointer.  Go panics (nil dereference, index or
slice out of range) are modelled as explicit `panic` outcomes.  External
collaborators (the Go regexp engine, reader and field-type implementations,
the record processor and error handler callbacks) are parameters, exactly as
they are interfaces or function values in the source.
-/

namespace StructuredFileReader

/-- A typed field value (`interface{}` in the source): the built-in field
types produce strings, numbers or dates. `num m e` stands for the float
`m * 10 ^ e` produced by the Number field type; no claim inspects it. -/
inductive GoVal where
  | str : String → GoVal
  | num : Int → Int → GoVal
  | date : String → GoVal
deriving DecidableEq, Repr

/-- The error taxonomy of `errors.go`: `config` is a `ConfigurationError`,
`recordParse` a `RecordParseError` (record name, text), `fieldParse` a
`FieldParseError` (record name, field name, text); `other` covers plain Go
errors such as ones returned by a record processor. -/
inductive Err where
  | config : String → Err
  | recordParse : String → String → Err
  | fieldParse : String → String → String → Err
  | other : String → Err
deriving DecidableEq, Repr

/-- Outcome of `RecordReader.Read(data []byte) (values []string, err error)`:
`res values err` is a normal return carrying both results (Go readers can
return partial values together with an error); `panic` models a Go runtime
panic inside the reader. -/
inductive ReadOutcome where
  | res : List String → Option String → ReadOutcome
  | panic : ReadOutcome
deriving DecidableEq, Repr

/-- Holds (as `true`) exactly when the outcome is a normal return with a non-nil error. -/
def ReadOutcome.isErrResult : ReadOutcome → Bool
  | .res _ (some _) => true
  | _ => false

/-- A `RecordReader` implementation, as the engine sees it: the `Read`
method. -/
def ReaderFn : Type := List Char → ReadOutcome

/-- A `FieldType` implementation: `GetValue(data string) (interface{}, error)`
returns both a value (possibly nil) and an error (possibly nil). -/
def FieldTypeFn : Type := String → Option GoVal × Option String

/-- The Go stdlib `regexp.Match(pattern, data) (matched bool, err error)`,
an external collaborator of `RecordDefinition.Match`. -/
def RegexpMatch : Type := String → List Char → Bool × Option String

/-- The `FieldDefinition` of definitions.go with its `FieldType` resolved. -/
structure FieldDefinition where
  Name : String
  TypeName : String
  FieldType : FieldTypeFn

/-- The `RecordDefinition` of definitions.go with its `RecordReader` resolved. -/
structure RecordDefinition where
  Name : String
  MatchExpression : String
  RecordReader : ReaderFn
  ParentRecordName : String
  FieldDefinitions : List FieldDefinition

/-- The `Parser` configuration consulted by `Parse` (its callbacks are
passed separately as function arguments). -/
structure Parser where
  RecordDefinitions : List RecordDefinition
  SplitOnRecordName : String

/-- Embeds `RecordDefinition.Match`: an empty `MatchExpression` always matches,
otherwise the result of `regexp.Match`. -/
def RecordDefinition.Match (rd : RecordDefinition) (rm : RegexpMatch)
    (data : List Char) : Bool × Option String :=
  if rd.MatchExpression = "" then (true, none) else rm rd.MatchExpression data

/-- A `Field` as stored in a record. `Value` is `none` when `GetValue`
returned nil (the undefined value of `interface{}`). -/
structure Field where
  Name : String
  TypeName : String
  Value : Option GoVal
deriving DecidableEq, Repr

/-- The mutable contents of one heap-allocated `Record`; `Parent` and
`Children` hold heap indices in place of `*Record` pointers. -/
structure RecordData where
  Name : String
  Fields : List Field
  Parent : Option Nat
  Children : List Nat
  isWithinSplit : Bool
deriving DecidableEq, Repr

/-- The local state of one `Parse` call: the record heap (index =
allocation order), the `lastRecords` map, the in-flight `splitRec`, the
trace of `RecordProcessor` invocations (`emitted`), and `lineNum`. -/
structure ParseState where
  heap : List RecordData
  lastRecords : List (String × Nat)
  splitRec : Option Nat
  emitted : List (Option Nat)
  lineNum : Nat
deriving DecidableEq, Repr

/-- Go map read: the most recent insertion for a key wins. -/
def mapLookup (m : List (String × Nat)) (k : String) : Option Nat :=
  match m with
  | [] => none
  | (k', v) :: rest => if k' = k then some v else mapLookup rest k

/-- Go map write (insert-at-front; `mapLookup` finds the newest entry). -/
def mapInsert (m : List (String × Nat)) (k : String) (v : Nat) :
    List (String × Nat) :=
  (k, v) :: m

/-- Mutate the record at heap index `i` in place (no-op when out of range,
which never happens for indices obtained from `lastRecords`). -/
def heapModify (h : List RecordData) (i : Nat)
    (f : RecordData → RecordData) : List RecordData :=
  match h[i]? with
  | some d => h.set i (f d)
  | none => h

/-- The `ErrorHandler` callback: receives a possibly-nil error, returns a
possibly-nil error (non-nil aborts parsing). -/
def ErrorHandler : Type := Option Err → Option Err

/-- The `DefaultErrorHandler` returns the error passed into it. -/
def DefaultErrorHandler : ErrorHandler := fun e => e

/-- The `RecordProcessor` callback, abstracted by its returned error as a
function of the record pointer handed to it (`none` is the nil `*Record`). -/
def RecordProcessor : Type := Option Nat → Option Err

/-- Result of processing one scanned line inside `Parse`'s loop:
continue scanning, return an error (`return err` in the source), or a Go
runtime panic. -/
inductive StepResult where
  | cont : ParseState → StepResult
  | abort : ParseState → Err → StepResult
  | panic : ParseState → StepResult
deriving DecidableEq, Repr

/-- The field-building loop of `Parse` (`for i, fldDef := range
recDef.FieldDefinitions`): past-the-end indices raise a `RecordParseError`
through the handler, and — when the handler continues — the subsequent
`recVals[i]` access is an index-out-of-range panic; a `GetValue` error
raises a `FieldParseError` through the handler, and — when the handler
continues — the field is appended with whatever value `GetValue` returned. -/
inductive FieldsResult where
  | ok : List Field → FieldsResult
  | abort : Err → FieldsResult
  | panic : FieldsResult
deriving DecidableEq, Repr

def buildFieldsAux (handler : ErrorHandler) (recName : String)
    (lineNum : Nat) (recVals : List String) :
    Nat → List FieldDefinition → FieldsResult
  | _, [] => .ok []
  | i, fd :: rest =>
    if h : i < recVals.length then
      let pr := fd.FieldType (recVals.get ⟨i, h⟩)
      let fld : Field := ⟨fd.Name, fd.TypeName, pr.1⟩
      let contWith : FieldsResult :=
        match buildFieldsAux handler recName lineNum recVals (i + 1) rest with
        | .ok flds => .ok (fld :: flds)
        | .abort e => .abort e
        | .panic => .panic
      match pr.2 with
      | some msg =>
        match handler (some (.fieldParse recName fd.Name
            ("Error on line " ++ toString lineNum ++
             " getting field value: " ++ msg))) with
        | some e => .abort e
        | none => contWith
      | none => contWith
    else
      match handler (some (.recordParse recName
          ("Past the end of available data on line " ++
           toString lineNum))) with
      | some e => .abort e
      | none => .panic

/-- Lines 152–163 of `Parse`: when the just-built record (heap index `n`)
has the split name, emit the previous `splitRec` (aborting on a processor
error), install `n` as the new `splitRec`, and mark it `isWithinSplit`. -/
def splitPhase (p : Parser) (proc : RecordProcessor) (rdName : String)
    (n : Nat) (s : ParseState) : StepResult :=
  if rdName = p.SplitOnRecordName then
    match s.splitRec with
    | some r =>
      let s1 := { s with emitted := s.emitted ++ [some r] }
      match proc (some r) with
      | some e => .abort s1 e
      | none =>
        .cont { s1 with
          splitRec := some n,
          heap := heapModify s1.heap n
            (fun d => { d with isWithinSplit := true }) }
    | none =>
      .cont { s with
        splitRec := some n,
        heap := heapModify s.heap n
          (fun d => { d with isWithinSplit := true }) }
  else .cont s

/-- Lines 164–187 of `Parse`: attach the just-built record (heap index `n`)
to the most recent record of its declared parent type.  If the parent is
within the split, append `n` to the parent's `Children` and mark `n`
`isWithinSplit`; otherwise store a `Parent` pointer on `n`.  When no parent
record is available and the parent name is non-empty, raise a
`RecordParseError` through the handler. -/
def attachPhase (handler : ErrorHandler) (rd : RecordDefinition)
    (lineNum : Nat) (n : Nat) (s : ParseState) : StepResult :=
  match mapLookup s.lastRecords rd.ParentRecordName with
  | some pid =>
    match s.heap[pid]? with
    | some parentData =>
      if parentData.isWithinSplit then
        let s1 := { s with
          heap := heapModify s.heap n
            (fun d => { d with isWithinSplit := true }) }
        .cont { s1 with
          heap := heapModify s1.heap pid
            (fun d => { d with Children := d.Children ++ [n] }) }
      else
        .cont { s with
          heap := heapModify s.heap n
            (fun d => { d with Parent := some pid }) }
    | none => .panic s
  | none =>
    if rd.ParentRecordName = "" then .cont s
    else
      match handler (some (.recordParse rd.Name
          ("No available parent record \"" ++ rd.ParentRecordName ++
           "\" on line " ++ toString lineNum))) with
      | some e => .abort s e
      | none => .cont s

/-- Lines 113–189 of `Parse`: process one line that matched `rd` — read the
raw values, build the fields, allocate the record, register it in
`lastRecords`, run the split hand-off and the parent attachment. -/
def processMatched (p : Parser) (handler : ErrorHandler)
    (proc : RecordProcessor) (rd : RecordDefinition) (line : List Char)
    (s : ParseState) : StepResult :=
  match rd.RecordReader line with
  | .panic => .panic s
  | .res recVals rerr =>
    let afterReadErr : Option Err :=
      match rerr with
      | some msg => handler (some (.recordParse rd.Name
          ("Error reading from RecordReader: " ++ msg)))
      | none => none
    match afterReadErr with
    | some e => .abort s e
    | none =>
      match buildFieldsAux handler rd.Name s.lineNum recVals 0
          rd.FieldDefinitions with
      | .abort e => .abort s e
      | .panic => .panic s
      | .ok fields =>
        let n := s.heap.length
        let rec0 : RecordData :=
          ⟨rd.Name, fields, none, [], false⟩
        let s1 : ParseState := { s with
          heap := s.heap ++ [rec0],
          lastRecords := mapInsert s.lastRecords rd.Name n }
        match splitPhase p proc rd.Name n s1 with
        | .abort s2 e => .abort s2 e
        | .panic s2 => .panic s2
        | .cont s2 => attachPhase handler rd s.lineNum n s2

/-- Lines 104–190 of `Parse`: try the record definitions in declared order;
the error handler is consulted after every match test (with a nil error
when the test succeeded), the first definition that matches processes the
line, and the loop breaks. -/
def tryDefs (p : Parser) (rm : RegexpMatch) (handler : ErrorHandler)
    (proc : RecordProcessor) (line : List Char) (s : ParseState) :
    List RecordDefinition → StepResult
  | [] => .cont s
  | rd :: rest =>
    match handler ((rd.Match rm line).2.map Err.config) with
    | some e => .abort s e
    | none =>
      if (rd.Match rm line).1 then processMatched p handler proc rd line s
      else tryDefs p rm handler proc line s rest

/-- One iteration of `Parse`'s scanner loop body (the line number has
already been incremented by the caller). -/
def processLine (p : Parser) (rm : RegexpMatch) (handler : ErrorHandler)
    (proc : RecordProcessor) (s : ParseState) (line : List Char) :
    StepResult :=
  tryDefs p rm handler proc line s p.RecordDefinitions

/-- Result of the scanner loop of `Parse`. -/
inductive RunResult where
  | finished : ParseState → RunResult
  | aborted : ParseState → Err → RunResult
  | panicked : ParseState → RunResult
deriving DecidableEq, Repr

/-- The scanner loop of `Parse`: `lineNum++` then the loop body, until the
lines are exhausted or an early `return` / panic occurs. -/
def runLines (p : Parser) (rm : RegexpMatch) (handler : ErrorHandler)
    (proc : RecordProcessor) : List (List Char) → ParseState → RunResult
  | [], s => .finished s
  | l :: ls, s =>
    match processLine p rm handler proc { s with lineNum := s.lineNum + 1 } l with
    | .cont s' => runLines p rm handler proc ls s'
    | .abort s' e => .aborted s' e
    | .panic s' => .panicked s'

/-- Result of a whole `Parse` call: the final state together with the
returned error (`none` on success), or a Go runtime panic. -/
inductive ParseResult where
  | ret : ParseState → Option Err → ParseResult
  | panic : ParseState → ParseResult
deriving DecidableEq, Repr

/-- The state at entry of `Parse`. -/
def initState : ParseState := ⟨[], [], none, [], 0⟩

/-- Embeds `Parser.Parse` (lines 90–194): run the scanner loop over the input
lines; at end of input, hand `splitRec` to the record processor exactly
once more and return the error handler's view of the processor's result. -/
def Parser.Parse (p : Parser) (rm : RegexpMatch) (handler : ErrorHandler)
    (proc : RecordProcessor) (lines : List (List Char)) : ParseResult :=
  match runLines p rm handler proc lines initState with
  | .finished s =>
    .ret { s with emitted := s.emitted ++ [s.splitRec] }
      (handler (proc s.splitRec))
  | .aborted s e => .ret s (some e)
  | .panicked s => .panic s

/-- The final state reached by a `Parse` call, whether it returned or
panicked. -/
def parseFinalState : ParseResult → ParseState
  | .ret s _ => s
  | .panic s => s

/-! ## Built-in record readers and field types -/

/-- The `FixedWidthFieldCoordinate` of fixedwidth.go. -/
structure FixedWidthFieldCoordinate where
  Start : Int
  End : Int
deriving DecidableEq, Repr

/-- The `FixedWidthRecordReader` of fixedwidth.go. -/
structure FixedWidthRecordReader where
  Coordinates : List FixedWidthFieldCoordinate
deriving DecidableEq, Repr

/-- The Go slice expression `string(data[a:b])` on a byte slice whose
capacity equals its length: defined when `0 ≤ a ≤ b ≤ len(data)`, a runtime
panic (`none`) otherwise. -/
def goSliceString (data : List Char) (a b : Int) : Option String :=
  if 0 ≤ a ∧ a ≤ b ∧ b ≤ (data.length : Int) then
    some (String.mk ((data.drop a.toNat).take (b - a).toNat))
  else none

def fixedWidthReadAux (data : List Char) :
    List FixedWidthFieldCoordinate → Option (List String)
  | [] => some []
  | c :: cs =>
    match goSliceString data c.Start c.End with
    | none => none
    | some v =>
      match fixedWidthReadAux data cs with
      | none => none
      | some vs => some (v :: vs)

/-- Embeds `FixedWidthRecordReader.Read`: slice each configured coordinate range
out of the line, with no bounds checking — an out-of-range coordinate is a
runtime panic, never a returned error. -/
def FixedWidthRecordReader.Read (fwr : FixedWidthRecordReader)
    (data : List Char) : ReadOutcome :=
  match fixedWidthReadAux data fwr.Coordinates with
  | some vs => .res vs none
  | none => .panic

/-- Embeds `StringFieldType.GetValue`: identity, never fails. -/
def StringFieldType : FieldTypeFn := fun data => (some (.str data), none)

/-! ## Schema loading (definitions.go) -/

/-- A registered `RecordReaderUnmarshalFunc`: raw reader config to a
resolved reader, or an unmarshalling error. -/
def RecordReaderUnmarshalFunc : Type := String → Except String ReaderFn

/-- A registered `FieldTypeUnmarshalFunc`. -/
def FieldTypeUnmarshalFunc : Type := String → Except String FieldTypeFn

def RecordReaderRegistry : Type := List (String × RecordReaderUnmarshalFunc)

def FieldTypeRegistry : Type := List (String × FieldTypeUnmarshalFunc)

/-- Registry lookup (Go map read). -/
def regLookup {α : Type} (m : List (String × α)) (k : String) : Option α :=
  match m with
  | [] => none
  | (k', v) :: rest => if k' = k then some v else regLookup rest k

/-- Embeds `GetRecordReaderUnmarshalFunc`: a `ConfigurationError` when the name is
not registered. -/
def GetRecordReaderUnmarshalFunc (reg : RecordReaderRegistry)
    (name : String) : Except String RecordReaderUnmarshalFunc :=
  match regLookup reg name with
  | none => .error ("No RecordReader named \"" ++ name ++
      "\" exists in registry")
  | some f => .ok f

/-- Embeds `GetFieldTypeUnmarshalFunc`: a `ConfigurationError` when the name is
not registered. -/
def GetFieldTypeUnmarshalFunc (reg : FieldTypeRegistry) (name : String) :
    Except String FieldTypeUnmarshalFunc :=
  match regLookup reg name with
  | none => .error ("No FieldType named \"" ++ name ++
      "\" exists in registry")
  | some f => .ok f

/-- The already-JSON-decoded envelope of one `FieldDefinition` (the schema
document as `definitions.go` sees it after the generic decode). -/
structure RawFieldDefinition where
  Name : String
  TypeName : String
  FieldTypeConfig : String
deriving DecidableEq, Repr

/-- The already-JSON-decoded envelope of one `RecordDefinition`. -/
structure RawRecordDefinition where
  Name : String
  MatchExpression : String
  ReaderName : String
  RecordReaderConfig : String
  ParentRecordName : String
  FieldDefinitions : List RawFieldDefinition
deriving DecidableEq, Repr

/-- The already-JSON-decoded parser configuration. -/
structure RawParserConfig where
  SplitOnRecordName : String
  RecordDefinitions : List RawRecordDefinition
deriving DecidableEq, Repr

/-- Embeds `FieldDefinition.UnmarshalJSON`: resolve the field type through the
registry (an unregistered `TypeName` is an error) and run its unmarshal
function on the raw config. -/
def unmarshalFieldDefinition (ftReg : FieldTypeRegistry)
    (raw : RawFieldDefinition) : Except String FieldDefinition :=
  match GetFieldTypeUnmarshalFunc ftReg raw.TypeName with
  | .error e => .error
      ("Error getting field type unmarshal function for FieldType \"" ++
       raw.Name ++ "\": " ++ e)
  | .ok f =>
    match f raw.FieldTypeConfig with
    | .error e => .error e
    | .ok ft => .ok ⟨raw.Name, raw.TypeName, ft⟩

def unmarshalFieldDefinitions (ftReg : FieldTypeRegistry) :
    List RawFieldDefinition → Except String (List FieldDefinition)
  | [] => .ok []
  | r :: rs =>
    match unmarshalFieldDefinition ftReg r with
    | .error e => .error e
    | .ok fd =>
      match unmarshalFieldDefinitions ftReg rs with
      | .error e => .error e
      | .ok fds => .ok (fd :: fds)

/-- Embeds `RecordDefinition.UnmarshalJSON`: an unregistered `ReaderName` is an
immediate error; a failure of the resolved reader unmarshal function,
however, is swallowed by the source (its `err` is overwritten by the later
`ParentRecordName` unmarshal), leaving a nil `RecordReader` — modelled as a
reader whose every call panics (a nil-interface method call). -/
def unmarshalRecordDefinition (rReg : RecordReaderRegistry)
    (ftReg : FieldTypeRegistry) (raw : RawRecordDefinition) :
    Except String RecordDefinition :=
  match GetRecordReaderUnmarshalFunc rReg raw.ReaderName with
  | .error e => .error
      ("Error getting record reader unmarshal function for RecordDefinition \"" ++
       raw.Name ++ "\": " ++ e)
  | .ok readerFunc =>
    let reader : ReaderFn :=
      match readerFunc raw.RecordReaderConfig with
      | .ok r => r
      | .error _ => fun _ => .panic
    match unmarshalFieldDefinitions ftReg raw.FieldDefinitions with
    | .error e => .error e
    | .ok fds =>
      .ok ⟨raw.Name, raw.MatchExpression, reader, raw.ParentRecordName, fds⟩

def unmarshalRecordDefinitions (rReg : RecordReaderRegistry)
    (ftReg : FieldTypeRegistry) :
    List RawRecordDefinition → Except String (List RecordDefinition)
  | [] => .ok []
  | r :: rs =>
    match unmarshalRecordDefinition rReg ftReg r with
    | .error e => .error e
    | .ok rd =>
      match unmarshalRecordDefinitions rReg ftReg rs with
      | .error e => .error e
      | .ok rds => .ok (rd :: rds)

/-- Embeds `NewParser`: decode the configuration; any decode error is returned as
a `ConfigurationError` before any input line is read (`Parse` takes the
resolved `Parser` only and never consults a registry). -/
def NewParser (rReg : RecordReaderRegistry) (ftReg : FieldTypeRegistry)
    (config : RawParserConfig) : Except Err Parser :=
  match unmarshalRecordDefinitions rReg ftReg config.RecordDefinitions with
  | .error e => .error (.config e)
  | .ok defs => .ok ⟨defs, config.SplitOnRecordName⟩

/-! ## Helper functions and lemmas -/

/-- The state carried by a step result. -/
def StepResult.state : StepResult → ParseState
  | .cont s => s
  | .abort s _ => s
  | .panic s => s

/-- Holds (as `true`) exactly when the step continued. -/
def StepResult.isCont : StepResult → Bool
  | .cont _ => true
  | _ => false

/-- The state carried by a run result. -/
def RunResult.state : RunResult → ParseState
  | .finished s => s
  | .aborted s _ => s
  | .panicked s => s

/-- An error handler that continues on every error (returns nil). -/
def permissiveHandler : ErrorHandler := fun _ => none

/-- A record processor that always succeeds (the default one). -/
def procNil : RecordProcessor := fun _ => none

/-- A regexp collaborator that is never consulted in the examples that use
only empty match expressions. -/
def rmNone : RegexpMatch := fun _ _ => (false, none)

/-- A reader that yields a single value regardless of the line. -/
def oneValReader : ReaderFn := fun _ => .res ["a"] none

/-- The record definition for C8's failing input: two String fields but a
reader producing one value. -/
def c8Def : RecordDefinition :=
  ⟨"R", "", oneValReader, "",
    [⟨"F1", "String", StringFieldType⟩, ⟨"F2", "String", StringFieldType⟩]⟩

def c8Parser : Parser := ⟨[c8Def], "R"⟩

/-- A reader that yields no values (for schemas whose record types carry no
field definitions). -/
def emptyReader : ReaderFn := fun _ => .res [] none

/-- Models Go `regexp.Match` for the anchored literal patterns used in the
examples: pattern `^lit` matches a line iff `lit` is a prefix of it. -/
def charListStartsWith : List Char → List Char → Bool
  | [], _ => true
  | _ :: _, [] => false
  | a :: as, b :: bs => a = b && charListStartsWith as bs

def literalPrefixRegexp : RegexpMatch := fun pat line =>
  match pat.toList with
  | '^' :: rest => (charListStartsWith rest line, none)
  | _ => (false, some "unsupported pattern")

/-- Two record definitions whose patterns both match the line `Hx`. -/
def rdH1 : RecordDefinition := ⟨"H1", "^H", emptyReader, "", []⟩

def rdH2 : RecordDefinition := ⟨"H2", "^H", emptyReader, "", []⟩

def pBoth : Parser := ⟨[rdH1, rdH2], "H1"⟩

/-- Concrete states for the C2 witness: a parent within the split and a
parent outside the split. -/
def c2StateIn : ParseState :=
  ⟨[⟨"P", [], none, [], true⟩, ⟨"C", [], none, [], false⟩],
   [("P", 0)], none, [], 0⟩

def c2StateOut : ParseState :=
  ⟨[⟨"P", [], none, [], false⟩, ⟨"C", [], none, [], false⟩],
   [("P", 0)], none, [], 0⟩

def c2Def : RecordDefinition := ⟨"C", "", emptyReader, "P", []⟩

/-- Concrete schema for the C5 witness: a child type "C" whose parent type
"P" never occurs. -/
def c5Def : RecordDefinition := ⟨"C", "", emptyReader, "P", []⟩

def c5Parser : Parser := ⟨[c5Def], "H"⟩

/-- Concrete schema for the C5 witness's split-type case: the split type
"H" itself declares the parent type "B", which never occurs (the
POHeader-joins-POBatch shape of the repository's sample schema). -/
def c5SplitDef : RecordDefinition := ⟨"H", "", emptyReader, "B", []⟩

def c5SplitParser : Parser := ⟨[c5SplitDef], "H"⟩

/-- Heap index `r` holds a record named `name`. -/
def LiveNamed (heap : List RecordData) (r : Nat) (name : String) : Prop :=
  ∃ d, heap[r]? = some d ∧ d.Name = name

/-- States that `h2` evolves from `h1` without renaming or freeing records. -/
def HeapNames (h1 h2 : List RecordData) : Prop :=
  h1.length ≤ h2.length ∧
  ∀ (i : Nat) (d : RecordData), h1[i]? = some d →
    ∃ d' : RecordData, h2[i]? = some d' ∧ d'.Name = d.Name

/-- The invariant `Parse`'s loop maintains on its state. -/
def Inv (p : Parser) (s : ParseState) : Prop :=
  (∀ kv ∈ s.lastRecords, LiveNamed s.heap kv.2 kv.1) ∧
  mapLookup s.lastRecords p.SplitOnRecordName = s.splitRec ∧
  (∀ r, some r ∈ s.emitted → r < s.heap.length) ∧
  (∀ r, some r ∈ s.emitted → s.splitRec ≠ some r) ∧
  (∀ r, some r ∈ s.emitted → LiveNamed s.heap r p.SplitOnRecordName)

/-- The three-level example schema: H is the split type, L joins to H, S
joins to L. -/
def rdHsplit : RecordDefinition := ⟨"H", "^H", emptyReader, "", []⟩

def rdL : RecordDefinition := ⟨"L", "^L", emptyReader, "H", []⟩

def rdS : RecordDefinition := ⟨"S", "^S", emptyReader, "L", []⟩

def pHLS : Parser := ⟨[rdHsplit, rdL, rdS], "H"⟩

/-- Holds (as `true`) exactly when parser construction failed with a
`ConfigurationError`. -/
def isConfigErr : Except Err Parser → Bool
  | .error (.config _) => true
  | _ => false

/-- Concrete registries and schema documents for the C9 witness. -/
def c9ReaderReg : RecordReaderRegistry := [("Empty", fun _ => .ok emptyReader)]

def c9FtReg : FieldTypeRegistry := [("String", fun _ => .ok StringFieldType)]

def c9BadConfig : RawParserConfig :=
  ⟨"H", [⟨"H", "", "Delimited", "", "", []⟩]⟩

def c9GoodConfig : RawParserConfig :=
  ⟨"H", [⟨"H", "", "Empty", "", "", [⟨"F1", "String", ""⟩]⟩]⟩

theorem heapModify_length (h : List RecordData) (i : Nat)
    (f : RecordData → RecordData) : (heapModify h i f).length = h.length := by
  unfold heapModify
  cases hd : h[i]? <;> simp

theorem heapModify_getElem?_ne (h : List RecordData) (i : Nat)
    (f : RecordData → RecordData) (j : Nat) (hne : j ≠ i) :
    (heapModify h i f)[j]? = h[j]? := by
  unfold heapModify
  cases hd : h[i]? with
  | none => rfl
  | some d => exact List.getElem?_set_ne (fun he => hne he.symm)

theorem heapModify_getElem?_self (h : List RecordData) (i : Nat)
    (f : RecordData → RecordData) (d : RecordData) (hd : h[i]? = some d) :
    (heapModify h i f)[i]? = some (f d) := by
  unfold heapModify
  rw [hd]
  have hlt : i < h.length := (List.getElem?_eq_some.mp hd).1
  simp [List.getElem?_set_self hlt]

theorem mapLookup_mem (m : List (String × Nat)) (k : String) (v : Nat)
    (h : mapLookup m k = some v) : (k, v) ∈ m := by
  induction m with
  | nil => simp [mapLookup] at h
  | cons kv rest ih =>
    obtain ⟨k', v'⟩ := kv
    unfold mapLookup at h
    by_cases hk : k' = k
    · simp only [hk, if_pos rfl] at h
      cases h
      subst hk
      exact List.mem_cons_self _ _
    · simp only [if_neg hk] at h
      exact List.mem_cons_of_mem _ (ih h)

/-! ## Claim C7: FixedWidthRecordReader.Read -/

theorem fixedWidthReadAux_ok (data : List Char)
    (cs : List FixedWidthFieldCoordinate)
    (h : ∀ c ∈ cs, 0 ≤ c.Start ∧ c.Start ≤ c.End ∧
      c.End ≤ (data.length : Int)) :
    fixedWidthReadAux data cs =
      some (cs.map (fun c =>
        String.mk ((data.drop c.Start.toNat).take (c.End - c.Start).toNat))) := by
  induction cs with
  | nil => rfl
  | cons c rest ih =>
    have hc := h c (List.mem_cons_self _ _)
    have hrest := ih (fun c' hc' => h c' (List.mem_cons_of_mem _ hc'))
    simp only [fixedWidthReadAux, goSliceString, if_pos hc, hrest, List.map]

theorem fixedWidthReadAux_bad (data : List Char)
    (cs : List FixedWidthFieldCoordinate) (c : FixedWidthFieldCoordinate)
    (hmem : c ∈ cs)
    (hc : ¬ (0 ≤ c.Start ∧ c.Start ≤ c.End ∧ c.End ≤ (data.length : Int))) :
    fixedWidthReadAux data cs = none := by
  induction cs with
  | nil => simp at hmem
  | cons c0 rest ih =>
    rcases List.mem_cons.mp hmem with h0 | h0
    · subst h0
      simp only [fixedWidthReadAux, goSliceString, if_neg hc]
    · unfold fixedWidthReadAux
      cases goSliceString data c0.Start c0.End with
      | none => rfl
      | some v => rw [ih h0]

/-! ## Claim C10: the handler is invoked with a nil error on every
successful match test -/

/-- C7: for every FixedWidth configuration and line, `Read` returns the
verbatim slices of the configured half-open ranges, in order, whenever all
ranges lie within the line; but a range exceeding the line length (or
otherwise invalid) is a runtime panic — an out-of-range slice — not a
returned error. -/
theorem c7_fixedwidth_read (fwr : FixedWidthRecordReader) (data : List Char) :
    ((∀ c ∈ fwr.Coordinates, 0 ≤ c.Start ∧ c.Start ≤ c.End ∧
        c.End ≤ (data.length : Int)) →
      fwr.Read data = .res (fwr.Coordinates.map (fun c =>
        String.mk ((data.drop c.Start.toNat).take (c.End - c.Start).toNat)))
        none) ∧
    ((∃ c ∈ fwr.Coordinates, ¬ (0 ≤ c.Start ∧ c.Start ≤ c.End ∧
        c.End ≤ (data.length : Int))) →
      fwr.Read data = .panic) := by
  constructor
  · intro h
    unfold FixedWidthRecordReader.Read
    rw [fixedWidthReadAux_ok data fwr.Coordinates h]
  · rintro ⟨c, hmem, hc⟩
    unfold FixedWidthRecordReader.Read
    rw [fixedWidthReadAux_bad data fwr.Coordinates c hmem hc]

/-- Witness for C7's amended theorem at concrete inputs. -/
theorem c7_fixedwidth_read_witness :
    FixedWidthRecordReader.Read ⟨[⟨0, 2⟩, ⟨1, 3⟩]⟩ ['a', 'b', 'c'] =
      .res ["ab", "bc"] none ∧
    FixedWidthRecordReader.Read ⟨[⟨0, 5⟩]⟩ ['a', 'b', 'c'] = .panic := by
  constructor
  · exact ((c7_fixedwidth_read ⟨[⟨0, 2⟩, ⟨1, 3⟩]⟩ ['a', 'b', 'c']).1
      (by decide)).trans (by decide)
  · exact (c7_fixedwidth_read ⟨[⟨0, 5⟩]⟩ ['a', 'b', 'c']).2
      ⟨⟨0, 5⟩, by decide, by decide⟩

/-- C7 counterexample to the claim as stated: on the line "abc" with the
single configured range (0, 5), which exceeds the line length, `Read` does
not produce an error result — it panics. -/
theorem c7_counterexample :
    (FixedWidthRecordReader.Read ⟨[⟨0, 5⟩]⟩ ['a', 'b', 'c']).isErrResult
      = false ∧
    FixedWidthRecordReader.Read ⟨[⟨0, 5⟩]⟩ ['a', 'b', 'c'] = .panic := by
  decide

/-! ## Claim C8: the continue path with fewer reader values panics -/

/-- C8: on a line whose reader yields fewer values than there are field
definitions, an ErrorHandler that returns nil (continue) does not lead to a
record built with zero values — the engine indexes `recVals[i]` past the
end and panics. -/
theorem c8_short_read_continue_panics :
    c8Parser.Parse rmNone permissiveHandler procNil [['x']] =
      .panic ⟨[], [], none, [], 1⟩ := by
  decide

/-- C10: whenever the first record definition's match test on a line
succeeds without error, the configured ErrorHandler is consulted with a nil
error before the line is processed, so a handler returning non-nil on nil
input aborts parsing at the first line even though no error occurred. -/
theorem c10_handler_called_with_nil (p : Parser) (rm : RegexpMatch)
    (handler : ErrorHandler) (proc : RecordProcessor)
    (d : RecordDefinition) (rest : List RecordDefinition)
    (line : List Char) (ls : List (List Char)) (s : ParseState) (e : Err)
    (hdefs : p.RecordDefinitions = d :: rest)
    (hmatch : (d.Match rm line).2 = none)
    (hhandler : handler none = some e) :
    runLines p rm handler proc (line :: ls) s =
      .aborted { s with lineNum := s.lineNum + 1 } e ∧
    p.Parse rm handler proc (line :: ls) =
      .ret ⟨[], [], none, [], 1⟩ (some e) := by
  have hstep : ∀ s' : ParseState,
      processLine p rm handler proc s' line = .abort s' e := by
    intro s'
    unfold processLine
    rw [hdefs]
    simp only [tryDefs, hmatch, Option.map_none', hhandler]
  constructor
  · unfold runLines
    rw [hstep]
  · unfold Parser.Parse
    unfold runLines
    rw [hstep]
    rfl

/-- Witness for C10 at a concrete parser, line and handler. -/
theorem c10_handler_called_with_nil_witness :
    c8Parser.Parse rmNone (fun _ => some (.other "abort")) procNil [['x']] =
      .ret ⟨[], [], none, [], 1⟩ (some (.other "abort")) :=
  (c10_handler_called_with_nil c8Parser rmNone
    (fun _ => some (.other "abort")) procNil c8Def [] ['x'] []
    initState (.other "abort") rfl (by decide) rfl).2

/-! ## Claim C3: declared order, unconditional empty pattern, first match
wins -/

/-! ## Claim C2: parent attachment -/

/-- C3: record definitions are tested in declared order; an empty match
expression matches unconditionally; the first definition whose match test
succeeds processes the line and the scan stops — the result does not depend
on the later definitions; a non-matching definition passes control to the
next one in declared order. -/
theorem c3_declared_order_first_match (p : Parser) (rm : RegexpMatch)
    (handler : ErrorHandler) (proc : RecordProcessor) (line : List Char)
    (s : ParseState) :
    (∀ rd : RecordDefinition, rd.MatchExpression = "" →
      rd.Match rm line = (true, none)) ∧
    (∀ (rd : RecordDefinition) (rest : List RecordDefinition),
      (rd.Match rm line).2 = none → handler none = none →
      ((rd.Match rm line).1 = true →
        tryDefs p rm handler proc line s (rd :: rest) =
          processMatched p handler proc rd line s) ∧
      ((rd.Match rm line).1 = false →
        tryDefs p rm handler proc line s (rd :: rest) =
          tryDefs p rm handler proc line s rest)) := by
  constructor
  · intro rd h
    unfold RecordDefinition.Match
    rw [if_pos h]
  · intro rd rest hm hh
    constructor <;> intro h1 <;>
      simp only [tryDefs, hm, Option.map_none', hh, h1] <;> rfl

/-- Witness for C3: an empty pattern matches unconditionally, and when both
`rdH1` and `rdH2` match the line, the earlier-declared `rdH1` processes
it. -/
theorem c3_declared_order_first_match_witness :
    RecordDefinition.Match ⟨"A", "", emptyReader, "", []⟩ rmNone ['x'] =
      (true, none) ∧
    tryDefs pBoth literalPrefixRegexp DefaultErrorHandler procNil
        ['H', 'x'] initState [rdH1, rdH2] =
      processMatched pBoth DefaultErrorHandler procNil rdH1
        ['H', 'x'] initState := by
  constructor
  · exact (c3_declared_order_first_match pBoth rmNone DefaultErrorHandler
      procNil ['x'] initState).1 ⟨"A", "", emptyReader, "", []⟩ rfl
  · exact ((c3_declared_order_first_match pBoth literalPrefixRegexp
      DefaultErrorHandler procNil ['H', 'x'] initState).2 rdH1 [rdH2]
      (by decide) rfl).1 (by decide)

/-- C2: for a recognized line (new record at heap index `n`, fresh, so its
`Parent` is nil) whose definition's parent lookup finds `pid`: when the
parent is within the split, `n` is appended to the parent's `Children`,
`n`'s `withinSplit` flag is set, and no `Parent` pointer is stored on `n`;
when the parent is not within the split, a `Parent` reference to `pid` is
stored on `n`, `n` is not appended to the parent's `Children`, and `n`'s
flag is unchanged. -/
theorem c2_parent_attach (handler : ErrorHandler) (rd : RecordDefinition)
    (ln n : Nat) (s : ParseState) (pid : Nat) (pd nd : RecordData)
    (hlk : mapLookup s.lastRecords rd.ParentRecordName = some pid)
    (hpd : s.heap[pid]? = some pd)
    (hnd : s.heap[n]? = some nd)
    (hndP : nd.Parent = none) :
    (pd.isWithinSplit = true →
      (attachPhase handler rd ln n s).isCont = true ∧
      ((attachPhase handler rd ln n s).state.heap[pid]?).map
        RecordData.Children = some (pd.Children ++ [n]) ∧
      ((attachPhase handler rd ln n s).state.heap[n]?).map
        RecordData.isWithinSplit = some true ∧
      ((attachPhase handler rd ln n s).state.heap[n]?).map
        RecordData.Parent = some none) ∧
    (pd.isWithinSplit = false →
      (attachPhase handler rd ln n s).isCont = true ∧
      ((attachPhase handler rd ln n s).state.heap[n]?).map
        RecordData.Parent = some (some pid) ∧
      ((attachPhase handler rd ln n s).state.heap[pid]?).map
        RecordData.Children = some pd.Children ∧
      ((attachPhase handler rd ln n s).state.heap[n]?).map
        RecordData.isWithinSplit = some nd.isWithinSplit) := by
  constructor
  · intro hsplit
    have hres : attachPhase handler rd ln n s = .cont { s with
        heap := heapModify
          (heapModify s.heap n (fun d => { d with isWithinSplit := true }))
          pid (fun d => { d with Children := d.Children ++ [n] }) } := by
      unfold attachPhase
      rw [hlk]
      simp only [hpd, hsplit, eq_self_iff_true, if_true]
    rw [hres]
    by_cases hpn : pid = n
    · subst hpn
      have hpdnd : pd = nd := by
        rw [hpd] at hnd; exact Option.some.inj hnd
      have h1 : (heapModify s.heap pid
          (fun d => { d with isWithinSplit := true }))[pid]? =
          some { nd with isWithinSplit := true } :=
        heapModify_getElem?_self _ _ _ _ hnd
      have h2 := heapModify_getElem?_self
        (heapModify s.heap pid (fun d => { d with isWithinSplit := true }))
        pid (fun d => { d with Children := d.Children ++ [pid] })
        { nd with isWithinSplit := true } h1
      simp only [StepResult.isCont, StepResult.state, h2, hpdnd, hndP]
      simp [hpdnd]
    · have h1 : (heapModify s.heap n
          (fun d => { d with isWithinSplit := true }))[pid]? = some pd := by
        rw [heapModify_getElem?_ne _ _ _ _ hpn]
        exact hpd
      have h2 := heapModify_getElem?_self
        (heapModify s.heap n (fun d => { d with isWithinSplit := true }))
        pid (fun d => { d with Children := d.Children ++ [n] }) pd h1
      have h3 : (heapModify s.heap n
          (fun d => { d with isWithinSplit := true }))[n]? =
          some { nd with isWithinSplit := true } :=
        heapModify_getElem?_self _ _ _ _ hnd
      have h4 : (heapModify
          (heapModify s.heap n (fun d => { d with isWithinSplit := true }))
          pid (fun d => { d with Children := d.Children ++ [n] }))[n]? =
          some { nd with isWithinSplit := true } := by
        rw [heapModify_getElem?_ne _ _ _ _ (fun h => hpn h.symm)]
        exact h3
      simp [StepResult.isCont, StepResult.state, h2, h4, hndP]
  · intro hsplit
    have hres : attachPhase handler rd ln n s = .cont { s with
        heap := heapModify s.heap n (fun d => { d with Parent := some pid }) } := by
      unfold attachPhase
      rw [hlk]
      simp only [hpd]
      rw [if_neg (by rw [hsplit]; exact Bool.false_ne_true)]
    rw [hres]
    by_cases hpn : pid = n
    · subst hpn
      have hpdnd : pd = nd := by
        rw [hpd] at hnd; exact Option.some.inj hnd
      have h1 : (heapModify s.heap pid
          (fun d => { d with Parent := some pid }))[pid]? =
          some { nd with Parent := some pid } :=
        heapModify_getElem?_self _ _ _ _ hnd
      simp [StepResult.isCont, StepResult.state, h1, hpdnd]
    · have h1 : (heapModify s.heap n
          (fun d => { d with Parent := some pid }))[n]? =
          some { nd with Parent := some pid } :=
        heapModify_getElem?_self _ _ _ _ hnd
      have h2 : (heapModify s.heap n
          (fun d => { d with Parent := some pid }))[pid]? = some pd := by
        rw [heapModify_getElem?_ne _ _ _ _ hpn]
        exact hpd
      simp [StepResult.isCont, StepResult.state, h1, h2]

/-- Witness for C2 at concrete states, covering both branches. -/
theorem c2_parent_attach_witness :
    ((attachPhase DefaultErrorHandler c2Def 1 1 c2StateIn).state.heap[0]?).map
      RecordData.Children = some [1] ∧
    ((attachPhase DefaultErrorHandler c2Def 1 1 c2StateIn).state.heap[1]?).map
      RecordData.isWithinSplit = some true ∧
    ((attachPhase DefaultErrorHandler c2Def 1 1 c2StateIn).state.heap[1]?).map
      RecordData.Parent = some none ∧
    ((attachPhase DefaultErrorHandler c2Def 1 1 c2StateOut).state.heap[1]?).map
      RecordData.Parent = some (some 0) ∧
    ((attachPhase DefaultErrorHandler c2Def 1 1 c2StateOut).state.heap[0]?).map
      RecordData.Children = some [] := by
  have hin := (c2_parent_attach DefaultErrorHandler c2Def 1 1 c2StateIn 0
    ⟨"P", [], none, [], true⟩ ⟨"C", [], none, [], false⟩
    (by decide) (by decide) (by decide) rfl).1 rfl
  have hout := (c2_parent_attach DefaultErrorHandler c2Def 1 1 c2StateOut 0
    ⟨"P", [], none, [], false⟩ ⟨"C", [], none, [], false⟩
    (by decide) (by decide) (by decide) rfl).2 rfl
  exact ⟨hin.2.1, hin.2.2.1, hin.2.2.2, hout.2.1, hout.2.2.1⟩

/-! ## Line-number bookkeeping: the loop body never changes `lineNum`, the
scanner loop increments it once per line, so errors report 1-based line
numbers. -/

theorem splitPhase_state_lineNum (p : Parser) (proc : RecordProcessor)
    (rdName : String) (n : Nat) (s : ParseState) :
    (splitPhase p proc rdName n s).state.lineNum = s.lineNum := by
  unfold splitPhase
  by_cases hname : rdName = p.SplitOnRecordName
  · simp only [if_pos hname]
    rcases hsr : s.splitRec with _ | r
    · rfl
    · rcases hp : proc (some r) with _ | e <;> simp only [hp] <;> rfl
  · simp only [if_neg hname]
    rfl

theorem attachPhase_state_lineNum (handler : ErrorHandler)
    (rd : RecordDefinition) (ln n : Nat) (s : ParseState) :
    (attachPhase handler rd ln n s).state.lineNum = s.lineNum := by
  unfold attachPhase
  split
  · split
    · split
      · rfl
      · rfl
    · rfl
  · split
    · rfl
    · split
      · rfl
      · rfl

theorem splitAttach_state_lineNum (p : Parser) (handler : ErrorHandler)
    (proc : RecordProcessor) (rd : RecordDefinition) (ln n : Nat)
    (s1 : ParseState) :
    (match splitPhase p proc rd.Name n s1 with
     | StepResult.abort s2 e => StepResult.abort s2 e
     | StepResult.panic s2 => StepResult.panic s2
     | StepResult.cont s2 => attachPhase handler rd ln n s2).state.lineNum
      = s1.lineNum := by
  cases hsp : splitPhase p proc rd.Name n s1 with
  | abort s2 e =>
    have h := splitPhase_state_lineNum p proc rd.Name n s1
    rw [hsp] at h
    exact h
  | panic s2 =>
    have h := splitPhase_state_lineNum p proc rd.Name n s1
    rw [hsp] at h
    exact h
  | cont s2 =>
    have h := splitPhase_state_lineNum p proc rd.Name n s1
    rw [hsp] at h
    rw [attachPhase_state_lineNum]
    exact h

theorem processMatched_state_lineNum (p : Parser) (handler : ErrorHandler)
    (proc : RecordProcessor) (rd : RecordDefinition) (line : List Char)
    (s : ParseState) :
    (processMatched p handler proc rd line s).state.lineNum = s.lineNum := by
  unfold processMatched
  cases hr : rd.RecordReader line with
  | panic => rfl
  | res vals rerr =>
    simp only [hr]
    rcases rerr with _ | msg
    · simp only []
      cases hb : buildFieldsAux handler rd.Name s.lineNum vals 0
          rd.FieldDefinitions with
      | abort e => simp only [hb]; rfl
      | panic => simp only [hb]; rfl
      | ok fields =>
        simp only [hb]
        exact splitAttach_state_lineNum p handler proc rd s.lineNum
          s.heap.length _
    · cases hh : handler (some (.recordParse rd.Name
          ("Error reading from RecordReader: " ++ msg))) with
      | some e => simp only [hh]; rfl
      | none =>
        simp only [hh]
        cases hb : buildFieldsAux handler rd.Name s.lineNum vals 0
            rd.FieldDefinitions with
        | abort e => simp only [hb]; rfl
        | panic => simp only [hb]; rfl
        | ok fields =>
          simp only [hb]
          exact splitAttach_state_lineNum p handler proc rd s.lineNum
            s.heap.length _

theorem tryDefs_state_lineNum (p : Parser) (rm : RegexpMatch)
    (handler : ErrorHandler) (proc : RecordProcessor) (line : List Char)
    (s : ParseState) (defs : List RecordDefinition) :
    (tryDefs p rm handler proc line s defs).state.lineNum = s.lineNum := by
  induction defs with
  | nil => rfl
  | cons rd rest ih =>
    unfold tryDefs
    cases hh : handler ((rd.Match rm line).2.map Err.config) with
    | some e => simp only [hh]; rfl
    | none =>
      simp only [hh]
      by_cases hm : (rd.Match rm line).1
      · simp only [if_pos hm]
        exact processMatched_state_lineNum p handler proc rd line s
      · simp only [if_neg hm]
        exact ih

theorem processLine_state_lineNum (p : Parser) (rm : RegexpMatch)
    (handler : ErrorHandler) (proc : RecordProcessor) (s : ParseState)
    (line : List Char) :
    (processLine p rm handler proc s line).state.lineNum = s.lineNum :=
  tryDefs_state_lineNum p rm handler proc line s p.RecordDefinitions

theorem runLines_finished_lineNum (p : Parser) (rm : RegexpMatch)
    (handler : ErrorHandler) (proc : RecordProcessor)
    (lines : List (List Char)) :
    ∀ (s s' : ParseState), runLines p rm handler proc lines s = .finished s' →
      s'.lineNum = s.lineNum + lines.length := by
  induction lines with
  | nil =>
    intro s s' h
    unfold runLines at h
    cases h
    simp
  | cons l ls ih =>
    intro s s' h
    unfold runLines at h
    cases hstep : processLine p rm handler proc
        { s with lineNum := s.lineNum + 1 } l with
    | cont s1 =>
      rw [hstep] at h
      have h1 := ih s1 s' h
      have h2 := processLine_state_lineNum p rm handler proc
        { s with lineNum := s.lineNum + 1 } l
      rw [hstep] at h2
      simp only [StepResult.state] at h2
      rw [h1, h2]
      simp only [List.length_cons]
      omega
    | abort s1 e =>
      rw [hstep] at h
      exact RunResult.noConfusion h
    | panic s1 =>
      rw [hstep] at h
      exact RunResult.noConfusion h

/-! ## Claim C6: too few values abort with a located RecordParseError;
surplus values are ignored -/

theorem buildFieldsAux_too_few (recName : String) (ln : Nat)
    (recVals : List String) (fds : List FieldDefinition) :
    ∀ i : Nat, i ≤ recVals.length → recVals.length < i + fds.length →
      (∀ (j : Nat) (fd : FieldDefinition) (v : String), fds[j]? = some fd →
        recVals[i + j]? = some v → (fd.FieldType v).2 = none) →
      buildFieldsAux DefaultErrorHandler recName ln recVals i fds =
        .abort (.recordParse recName
          ("Past the end of available data on line " ++ toString ln)) := by
  induction fds with
  | nil =>
    intro i hle hlt _
    simp only [List.length_nil, Nat.add_zero] at hlt
    omega
  | cons fd rest ih =>
    intro i hle hlt hok
    by_cases h : i < recVals.length
    · have hv : recVals[i]? = some (recVals.get ⟨i, h⟩) := by simp
      have h0 : (fd.FieldType (recVals.get ⟨i, h⟩)).2 = none :=
        hok 0 fd _ (by simp) (by simp [hv])
      have hrec := ih (i + 1) (by omega)
        (by simp only [List.length_cons] at hlt; omega)
        (fun j fd' v hj hv' => hok (j + 1) fd' v (by simpa using hj)
          (by rw [show i + (j + 1) = i + 1 + j by omega]; exact hv'))
      simp only [buildFieldsAux, dif_pos h, h0, hrec]
    · simp only [buildFieldsAux, dif_neg h, DefaultErrorHandler]

theorem buildFieldsAux_take (handler : ErrorHandler) (recName : String)
    (ln : Nat) (recVals : List String) (fds : List FieldDefinition) :
    ∀ i : Nat, i + fds.length ≤ recVals.length →
      buildFieldsAux handler recName ln recVals i fds =
        buildFieldsAux handler recName ln
          (recVals.take (i + fds.length)) i fds := by
  induction fds with
  | nil => intro i _; rfl
  | cons fd rest ih =>
    intro i hle
    rw [show i + (fd :: rest).length = i + 1 + rest.length by
      simp only [List.length_cons]; omega]
    have hle' : i + 1 + rest.length ≤ recVals.length := by
      simp only [List.length_cons] at hle; omega
    have hi : i < recVals.length := by omega
    have hlen : i < (recVals.take (i + 1 + rest.length)).length := by
      simp only [List.length_take]; omega
    have hv : (recVals.take (i + 1 + rest.length)).get ⟨i, hlen⟩ =
        recVals.get ⟨i, hi⟩ := by
      have h1 : (recVals.take (i + 1 + rest.length))[i]? = recVals[i]? :=
        List.getElem?_take_of_lt (by omega)
      rw [List.getElem?_eq_getElem hlen, List.getElem?_eq_getElem hi] at h1
      simp only [Option.some.injEq] at h1
      simp [h1]
    simp only [buildFieldsAux, dif_pos hi, dif_pos hlen, hv]
    rw [ih (i + 1) hle']

theorem buildFieldsAux_ok_length (handler : ErrorHandler) (recName : String)
    (ln : Nat) (recVals : List String) (fds : List FieldDefinition) :
    ∀ (i : Nat) (flds : List Field),
      buildFieldsAux handler recName ln recVals i fds = .ok flds →
      flds.length = fds.length := by
  induction fds with
  | nil =>
    intro i flds h
    simp only [buildFieldsAux] at h
    cases h
    rfl
  | cons fd rest ih =>
    intro i flds h
    by_cases hi : i < recVals.length
    · rcases hrec : buildFieldsAux handler recName ln recVals (i + 1) rest
          with flds' | e | _
      · simp only [buildFieldsAux, dif_pos hi, hrec] at h
        split at h
        · split at h
          · simp at h
          · cases h
            simp [ih (i + 1) flds' hrec]
        · cases h
          simp [ih (i + 1) flds' hrec]
      · simp only [buildFieldsAux, dif_pos hi, hrec] at h
        split at h
        · split at h <;> simp at h
        · simp at h
      · simp only [buildFieldsAux, dif_pos hi, hrec] at h
        split at h
        · split at h <;> simp at h
        · simp at h
    · simp only [buildFieldsAux, dif_neg hi] at h
      split at h <;> simp at h

/-! ## Claim C5: missing parent raises a located RecordParseError and halts
under the default handler -/

/-- C6: with the default handler, a line whose reader yielded fewer values
than there are field definitions (and whose available values convert
cleanly) aborts with a `RecordParseError` carrying the record type name and
the text "Past the end of available data on line N"; surplus reader values
beyond the field definitions are ignored (the result only depends on the
first `fds.length` values); a successfully built record has exactly one
field per field definition; and `lineNum` is 1-based: it counts exactly the
scanned lines, starting from zero at `Parse` entry. -/
theorem c6_field_count (handler : ErrorHandler) (recName : String)
    (ln : Nat) (recVals : List String) (fds : List FieldDefinition) :
    (recVals.length < fds.length →
      (∀ (j : Nat) (fd : FieldDefinition) (v : String), fds[j]? = some fd →
        recVals[j]? = some v → (fd.FieldType v).2 = none) →
      buildFieldsAux DefaultErrorHandler recName ln recVals 0 fds =
        .abort (.recordParse recName
          ("Past the end of available data on line " ++ toString ln))) ∧
    (fds.length ≤ recVals.length →
      buildFieldsAux handler recName ln recVals 0 fds =
        buildFieldsAux handler recName ln (recVals.take fds.length) 0 fds) ∧
    (∀ flds, buildFieldsAux handler recName ln recVals 0 fds = .ok flds →
      flds.length = fds.length) ∧
    (∀ (p : Parser) (rm : RegexpMatch) (proc : RecordProcessor)
        (lines : List (List Char)) (s : ParseState),
      runLines p rm handler proc lines initState = .finished s →
      s.lineNum = lines.length) := by
  refine ⟨?_, ?_, ?_, ?_⟩
  · intro hlt hok
    exact buildFieldsAux_too_few recName ln recVals fds 0 (Nat.zero_le _)
      (by omega) (fun j fd v hj hv => hok j fd v hj (by simpa using hv))
  · intro hle
    have h := buildFieldsAux_take handler recName ln recVals fds 0
      (by omega)
    simpa using h
  · exact fun flds h => buildFieldsAux_ok_length handler recName ln recVals
      fds 0 flds h
  · intro p rm proc lines s h
    have := runLines_finished_lineNum p rm handler proc lines initState s h
    simpa [initState] using this

/-- Witness for C6 at concrete inputs: one value against two field
definitions aborts with the located error; a surplus value is ignored; the
line counter after one scanned line is 1. -/
theorem c6_field_count_witness :
    buildFieldsAux DefaultErrorHandler "R" 3 ["a"] 0
        [⟨"F1", "String", StringFieldType⟩, ⟨"F2", "String", StringFieldType⟩] =
      .abort (.recordParse "R" "Past the end of available data on line 3") ∧
    buildFieldsAux DefaultErrorHandler "R" 1 ["a", "b", "c"] 0
        [⟨"F1", "String", StringFieldType⟩] =
      buildFieldsAux DefaultErrorHandler "R" 1 ["a"] 0
        [⟨"F1", "String", StringFieldType⟩] ∧
    (RunResult.state (runLines pBoth literalPrefixRegexp DefaultErrorHandler
      procNil [['H']] initState)).lineNum = 1 := by
  refine ⟨?_, ?_, ?_⟩
  · refine ((c6_field_count DefaultErrorHandler "R" 3 ["a"]
      [⟨"F1", "String", StringFieldType⟩, ⟨"F2", "String", StringFieldType⟩]).1
      (by decide) ?_).trans (by decide)
    intro j fd v hj hv
    rcases j with _ | j
    · simp only [List.getElem?_cons_zero, Option.some.injEq] at hj hv
      subst hj
      subst hv
      rfl
    · simp at hv
  · exact ((c6_field_count DefaultErrorHandler "R" 1 ["a", "b", "c"]
      [⟨"F1", "String", StringFieldType⟩]).2.1 (by decide)).trans (by decide)
  · have h := (c6_field_count DefaultErrorHandler "R" 1 [] []).2.2.2
      pBoth literalPrefixRegexp procNil [['H']]
      ⟨[⟨"H1", [], none, [], true⟩], [("H1", 0)], some 0, [], 1⟩ (by decide)
    rw [show runLines pBoth literalPrefixRegexp DefaultErrorHandler procNil
      [['H']] initState = RunResult.finished
        ⟨[⟨"H1", [], none, [], true⟩], [("H1", 0)], some 0, [], 1⟩
      from by decide]
    exact h

/-- C5: when a matched line's record definition — of any type, the split
type included — names a non-empty parent type of which no record is
available (no `lastRecords` entry after the new record is registered;
the split hand-off, when it applies, does not touch the map),
`processMatched` under the default handler aborts with a
`RecordParseError` naming the parent type and the line number; an abort in
the loop body ends the scan with the remaining lines unread; and `Parse`
returns exactly that error. -/
theorem c5_missing_parent (p : Parser) (rm : RegexpMatch)
    (proc : RecordProcessor) :
    (∀ (rd : RecordDefinition) (line : List Char) (s s2 : ParseState)
        (vals : List String) (fields : List Field),
      rd.RecordReader line = .res vals none →
      buildFieldsAux DefaultErrorHandler rd.Name s.lineNum vals 0
        rd.FieldDefinitions = .ok fields →
      splitPhase p proc rd.Name s.heap.length
        { s with heap := s.heap ++ [⟨rd.Name, fields, none, [], false⟩],
                 lastRecords := mapInsert s.lastRecords rd.Name
                   s.heap.length } = .cont s2 →
      mapLookup s2.lastRecords rd.ParentRecordName = none →
      rd.ParentRecordName ≠ "" →
      processMatched p DefaultErrorHandler proc rd line s =
        .abort s2 (.recordParse rd.Name
          ("No available parent record \"" ++ rd.ParentRecordName ++
           "\" on line " ++ toString s.lineNum))) ∧
    (∀ (handler : ErrorHandler) (l : List Char) (ls : List (List Char))
        (s s' : ParseState) (e : Err),
      processLine p rm handler proc { s with lineNum := s.lineNum + 1 } l =
        .abort s' e →
      runLines p rm handler proc (l :: ls) s = .aborted s' e) ∧
    (∀ (handler : ErrorHandler) (lines : List (List Char))
        (s' : ParseState) (e : Err),
      runLines p rm handler proc lines initState = .aborted s' e →
      p.Parse rm handler proc lines = .ret s' (some e)) := by
  refine ⟨?_, ?_, ?_⟩
  · intro rd line s s2 vals fields hread hbuild hsp hlk hne
    simp only [processMatched, hread, hbuild]
    rw [hsp]
    simp only [attachPhase, hlk, if_neg hne, DefaultErrorHandler]
  · intro handler l ls s s' e hstep
    unfold runLines
    rw [hstep]
  · intro handler lines s' e hrun
    unfold Parser.Parse
    rw [hrun]

/-- Witness for C5: parsing a one-line input under the default handler
halts with the located missing-parent error, both for an ordinary record
type and for the split type itself. -/
theorem c5_missing_parent_witness :
    c5Parser.Parse rmNone DefaultErrorHandler procNil [['x']] =
      .ret ⟨[⟨"C", [], none, [], false⟩], [("C", 0)], none, [], 1⟩
        (some (.recordParse "C"
          "No available parent record \"P\" on line 1")) ∧
    c5SplitParser.Parse rmNone DefaultErrorHandler procNil [['x']] =
      .ret ⟨[⟨"H", [], none, [], true⟩], [("H", 0)], some 0, [], 1⟩
        (some (.recordParse "H"
          "No available parent record \"B\" on line 1")) := by
  constructor
  · have ha := (c5_missing_parent c5Parser rmNone procNil).1 c5Def ['x']
      ⟨[], [], none, [], 1⟩
      ⟨[⟨"C", [], none, [], false⟩], [("C", 0)], none, [], 1⟩ [] []
      rfl rfl (by decide) (by decide) (by decide)
    have hstep : processLine c5Parser rmNone DefaultErrorHandler procNil
        { initState with lineNum := initState.lineNum + 1 } ['x'] =
        .abort ⟨[⟨"C", [], none, [], false⟩], [("C", 0)], none, [], 1⟩
          (.recordParse "C"
            ("No available parent record \"" ++ "P" ++ "\" on line " ++
             toString 1)) := ha
    have hrun := (c5_missing_parent c5Parser rmNone procNil).2.1
      DefaultErrorHandler ['x'] [] initState _ _ hstep
    have hfin := (c5_missing_parent c5Parser rmNone procNil).2.2
      DefaultErrorHandler [['x']] _ _ hrun
    exact hfin.trans (by decide)
  · have ha := (c5_missing_parent c5SplitParser rmNone procNil).1 c5SplitDef
      ['x'] ⟨[], [], none, [], 1⟩
      ⟨[⟨"H", [], none, [], true⟩], [("H", 0)], some 0, [], 1⟩ [] []
      rfl rfl (by decide) (by decide) (by decide)
    have hstep : processLine c5SplitParser rmNone DefaultErrorHandler procNil
        { initState with lineNum := initState.lineNum + 1 } ['x'] =
        .abort ⟨[⟨"H", [], none, [], true⟩], [("H", 0)], some 0, [], 1⟩
          (.recordParse "H"
            ("No available parent record \"" ++ "B" ++ "\" on line " ++
             toString 1)) := ha
    have hrun := (c5_missing_parent c5SplitParser rmNone procNil).2.1
      DefaultErrorHandler ['x'] [] initState _ _ hstep
    have hfin := (c5_missing_parent c5SplitParser rmNone procNil).2.2
      DefaultErrorHandler [['x']] _ _ hrun
    exact hfin.trans (by decide)

/-! ## Engine-state invariants: lastRecords entries are live and carry the
entry's key as record name; the split-name entry is exactly splitRec;
emitted roots are split-named, live, and never the current splitRec. -/

theorem HeapNames_append (h : List RecordData) (x : RecordData) :
    HeapNames h (h ++ [x]) := by
  refine ⟨by simp, fun i d hd => ?_⟩
  have hi : i < h.length := (List.getElem?_eq_some.mp hd).1
  exact ⟨d, by rw [List.getElem?_append_left hi]; exact hd, rfl⟩

theorem HeapNames_modify (h : List RecordData) (i : Nat)
    (f : RecordData → RecordData) (hf : ∀ d, (f d).Name = d.Name) :
    HeapNames h (heapModify h i f) := by
  refine ⟨by rw [heapModify_length], fun j d hd => ?_⟩
  by_cases hji : j = i
  · subst hji
    exact ⟨f d, heapModify_getElem?_self _ _ _ _ hd, hf d⟩
  · exact ⟨d, by rw [heapModify_getElem?_ne _ _ _ _ hji]; exact hd, rfl⟩

theorem HeapNames_trans {h1 h2 h3 : List RecordData} (a : HeapNames h1 h2)
    (b : HeapNames h2 h3) : HeapNames h1 h3 := by
  refine ⟨Nat.le_trans a.1 b.1, fun i d hd => ?_⟩
  obtain ⟨d2, hd2, hn2⟩ := a.2 i d hd
  obtain ⟨d3, hd3, hn3⟩ := b.2 i d2 hd2
  exact ⟨d3, hd3, hn3.trans hn2⟩

theorem LiveNamed_mono {h1 h2 : List RecordData} (hh : HeapNames h1 h2)
    {r : Nat} {name : String} (h : LiveNamed h1 r name) :
    LiveNamed h2 r name := by
  obtain ⟨d, hd, hdn⟩ := h
  obtain ⟨d', hd', hdn'⟩ := hh.2 r d hd
  exact ⟨d', hd', hdn'.trans hdn⟩

theorem Inv_initState (p : Parser) : Inv p initState := by
  refine ⟨fun kv h => absurd h (List.not_mem_nil _), rfl, ?_, ?_, ?_⟩ <;>
    exact fun r h => absurd h (List.not_mem_nil _)

/-- The `attachPhase` only rewires children/parent pointers: a continuing step
leaves the map, `splitRec`, the emission trace unchanged and keeps every
record live under its name. -/
theorem attachPhase_cont_shape (handler : ErrorHandler)
    (rd : RecordDefinition) (ln n : Nat) (s s' : ParseState)
    (hc : attachPhase handler rd ln n s = .cont s') :
    HeapNames s.heap s'.heap ∧ s'.lastRecords = s.lastRecords ∧
    s'.splitRec = s.splitRec ∧ s'.emitted = s.emitted := by
  unfold attachPhase at hc
  split at hc
  · rename_i pid hlk
    split at hc
    · rename_i pd hpd
      split at hc
      · cases hc
        dsimp only
        refine ⟨?_, rfl, rfl, rfl⟩
        exact HeapNames_trans
          (HeapNames_modify s.heap n
            (fun d => { d with isWithinSplit := true }) (fun d => rfl))
          (HeapNames_modify
            (heapModify s.heap n (fun d => { d with isWithinSplit := true }))
            pid (fun d => { d with Children := d.Children ++ [n] })
            (fun d => rfl))
      · cases hc
        dsimp only
        exact ⟨HeapNames_modify s.heap n
          (fun d => { d with Parent := some pid }) (fun d => rfl),
          rfl, rfl, rfl⟩
    · exact StepResult.noConfusion hc
  · split at hc
    · cases hc
      exact ⟨⟨Nat.le_refl _, fun i d hd => ⟨d, hd, rfl⟩⟩, rfl, rfl, rfl⟩
    · split at hc
      · exact StepResult.noConfusion hc
      · cases hc
        exact ⟨⟨Nat.le_refl _, fun i d hd => ⟨d, hd, rfl⟩⟩, rfl, rfl, rfl⟩

theorem Inv_attachPhase (p : Parser) (handler : ErrorHandler)
    (rd : RecordDefinition) (ln n : Nat) (s s' : ParseState)
    (h : Inv p s) (hc : attachPhase handler rd ln n s = .cont s') :
    Inv p s' := by
  obtain ⟨hh, hm, hsr, hem⟩ := attachPhase_cont_shape handler rd ln n s s' hc
  obtain ⟨c1, c2, c3, c4, c5⟩ := h
  refine ⟨?_, ?_, ?_, ?_, ?_⟩
  · intro kv hkv
    rw [hm] at hkv
    exact LiveNamed_mono hh (c1 kv hkv)
  · rw [hm, hsr]
    exact c2
  · intro r hr
    rw [hem] at hr
    exact Nat.lt_of_lt_of_le (c3 r hr) hh.1
  · intro r hr
    rw [hem] at hr
    rw [hsr]
    exact c4 r hr
  · intro r hr
    rw [hem] at hr
    exact LiveNamed_mono hh (c5 r hr)

/-- Registering the freshly built record in `lastRecords` and running the
split hand-off preserves the invariant. -/
theorem Inv_insert_split (p : Parser) (proc : RecordProcessor)
    (rdName : String) (fields : List Field) (s s2 : ParseState)
    (h : Inv p s)
    (hsp : splitPhase p proc rdName s.heap.length
      { s with heap := s.heap ++ [⟨rdName, fields, none, [], false⟩],
               lastRecords := mapInsert s.lastRecords rdName s.heap.length }
      = .cont s2) : Inv p s2 := by
  obtain ⟨c1, c2, c3, c4, c5⟩ := h
  have hhn : HeapNames s.heap
      (s.heap ++ [⟨rdName, fields, none, [], false⟩]) :=
    HeapNames_append s.heap _
  have hwf1 : ∀ kv ∈ mapInsert s.lastRecords rdName s.heap.length,
      LiveNamed (s.heap ++ [⟨rdName, fields, none, [], false⟩]) kv.2 kv.1 := by
    intro kv hkv
    rcases List.mem_cons.mp hkv with h0 | h0
    · subst h0
      exact ⟨_, List.getElem?_concat_length _ _, rfl⟩
    · exact LiveNamed_mono hhn (c1 kv h0)
  have hwf2 : ∀ kv ∈ mapInsert s.lastRecords rdName s.heap.length,
      LiveNamed (heapModify
        (s.heap ++ [⟨rdName, fields, none, [], false⟩]) s.heap.length
        (fun d => { d with isWithinSplit := true })) kv.2 kv.1 :=
    fun kv hkv => LiveNamed_mono
      (HeapNames_modify (s.heap ++ [⟨rdName, fields, none, [], false⟩])
        s.heap.length (fun d => { d with isWithinSplit := true })
        (fun d => rfl)) (hwf1 kv hkv)
  have hhn2 : HeapNames s.heap (heapModify
      (s.heap ++ [⟨rdName, fields, none, [], false⟩]) s.heap.length
      (fun d => { d with isWithinSplit := true })) :=
    HeapNames_trans hhn
      (HeapNames_modify (s.heap ++ [⟨rdName, fields, none, [], false⟩])
        s.heap.length (fun d => { d with isWithinSplit := true })
        (fun d => rfl))
  have hlkS : mapLookup (mapInsert s.lastRecords rdName s.heap.length)
      p.SplitOnRecordName =
      if rdName = p.SplitOnRecordName then some s.heap.length
      else mapLookup s.lastRecords p.SplitOnRecordName := rfl
  unfold splitPhase at hsp
  by_cases hsplit : rdName = p.SplitOnRecordName
  · rw [if_pos hsplit] at hsp
    cases hsr : s.splitRec with
    | none =>
      simp only [hsr] at hsp
      cases hsp
      refine ⟨?_, ?_, ?_, ?_, ?_⟩
      · intro kv hkv
        exact hwf2 kv hkv
      · dsimp only
        rw [hlkS, if_pos hsplit]
      · intro r hr
        exact Nat.lt_of_lt_of_le (c3 r hr) hhn2.1
      · intro r hr heq
        have h1 := c3 r hr
        have h2 : s.heap.length = r := Option.some.inj heq
        omega
      · intro r hr
        exact LiveNamed_mono hhn2 (c5 r hr)
    | some r0 =>
      simp only [hsr] at hsp
      cases hp : proc (some r0) with
      | some e =>
        simp only [hp] at hsp
        exact StepResult.noConfusion hsp
      | none =>
        simp only [hp] at hsp
        cases hsp
        have hr0 : LiveNamed s.heap r0 p.SplitOnRecordName := by
          rw [hsr] at c2
          exact c1 _ (mapLookup_mem _ _ _ c2)
        have hr0lt : r0 < s.heap.length := by
          obtain ⟨d, hd, _⟩ := hr0
          exact (List.getElem?_eq_some.mp hd).1
        refine ⟨?_, ?_, ?_, ?_, ?_⟩
        · intro kv hkv
          exact hwf2 kv hkv
        · dsimp only
          rw [hlkS, if_pos hsplit]
        · intro r hr
          rcases List.mem_append.mp hr with h0 | h0
          · exact Nat.lt_of_lt_of_le (c3 r h0) hhn2.1
          · have hrr : r = r0 := by
              simp only [List.mem_singleton, Option.some.injEq] at h0
              exact h0
            subst hrr
            exact Nat.lt_of_lt_of_le hr0lt hhn2.1
        · intro r hr heq
          have hrn : s.heap.length = r := Option.some.inj heq
          rcases List.mem_append.mp hr with h0 | h0
          · have := c3 r h0
            omega
          · have hrr : r = r0 := by
              simp only [List.mem_singleton, Option.some.injEq] at h0
              exact h0
            omega
        · intro r hr
          rcases List.mem_append.mp hr with h0 | h0
          · exact LiveNamed_mono hhn2 (c5 r h0)
          · have hrr : r = r0 := by
              simp only [List.mem_singleton, Option.some.injEq] at h0
              exact h0
            subst hrr
            exact LiveNamed_mono hhn2 hr0
  · rw [if_neg hsplit] at hsp
    cases hsp
    refine ⟨hwf1, ?_, ?_, ?_, ?_⟩
    · dsimp only
      rw [hlkS, if_neg hsplit]
      exact c2
    · intro r hr
      exact Nat.lt_of_lt_of_le (c3 r hr) hhn.1
    · intro r hr
      exact c4 r hr
    · intro r hr
      exact LiveNamed_mono hhn (c5 r hr)

theorem Inv_processMatched (p : Parser) (handler : ErrorHandler)
    (proc : RecordProcessor) (rd : RecordDefinition) (line : List Char)
    (s s' : ParseState) (h : Inv p s)
    (hc : processMatched p handler proc rd line s = .cont s') :
    Inv p s' := by
  unfold processMatched at hc
  cases hr : rd.RecordReader line with
  | panic =>
    rw [hr] at hc
    exact StepResult.noConfusion hc
  | res vals rerr =>
    simp only [hr] at hc
    rcases rerr with _ | msg
    · simp only [] at hc
      cases hb : buildFieldsAux handler rd.Name s.lineNum vals 0
          rd.FieldDefinitions with
      | abort e =>
        simp only [hb] at hc
        exact StepResult.noConfusion hc
      | panic =>
        simp only [hb] at hc
        exact StepResult.noConfusion hc
      | ok fields =>
        simp only [hb] at hc
        cases hsp : splitPhase p proc rd.Name s.heap.length
            { s with heap := s.heap ++ [⟨rd.Name, fields, none, [], false⟩],
                     lastRecords := mapInsert s.lastRecords rd.Name
                       s.heap.length } with
        | abort s2 e =>
          rw [hsp] at hc
          exact StepResult.noConfusion hc
        | panic s2 =>
          rw [hsp] at hc
          exact StepResult.noConfusion hc
        | cont s2 =>
          rw [hsp] at hc
          exact Inv_attachPhase p handler rd s.lineNum s.heap.length s2 s'
            (Inv_insert_split p proc rd.Name fields s s2 h hsp) hc
    · cases hh : handler (some (.recordParse rd.Name
          ("Error reading from RecordReader: " ++ msg))) with
      | some e =>
        simp only [hh] at hc
        exact StepResult.noConfusion hc
      | none =>
        simp only [hh] at hc
        cases hb : buildFieldsAux handler rd.Name s.lineNum vals 0
            rd.FieldDefinitions with
        | abort e =>
          simp only [hb] at hc
          exact StepResult.noConfusion hc
        | panic =>
          simp only [hb] at hc
          exact StepResult.noConfusion hc
        | ok fields =>
          simp only [hb] at hc
          cases hsp : splitPhase p proc rd.Name s.heap.length
              { s with heap := s.heap ++ [⟨rd.Name, fields, none, [], false⟩],
                       lastRecords := mapInsert s.lastRecords rd.Name
                         s.heap.length } with
          | abort s2 e =>
            rw [hsp] at hc
            exact StepResult.noConfusion hc
          | panic s2 =>
            rw [hsp] at hc
            exact StepResult.noConfusion hc
          | cont s2 =>
            rw [hsp] at hc
            exact Inv_attachPhase p handler rd s.lineNum s.heap.length s2 s'
              (Inv_insert_split p proc rd.Name fields s s2 h hsp) hc

theorem Inv_tryDefs (p : Parser) (rm : RegexpMatch) (handler : ErrorHandler)
    (proc : RecordProcessor) (line : List Char) (s : ParseState)
    (defs : List RecordDefinition) :
    ∀ s' : ParseState, Inv p s →
      tryDefs p rm handler proc line s defs = .cont s' → Inv p s' := by
  induction defs with
  | nil =>
    intro s' h hc
    unfold tryDefs at hc
    cases hc
    exact h
  | cons rd rest ih =>
    intro s' h hc
    unfold tryDefs at hc
    split at hc
    · exact StepResult.noConfusion hc
    · split at hc
      · exact Inv_processMatched p handler proc rd line s s' h hc
      · exact ih s' h hc

theorem Inv_processLine (p : Parser) (rm : RegexpMatch)
    (handler : ErrorHandler) (proc : RecordProcessor) (s s' : ParseState)
    (line : List Char) (h : Inv p s)
    (hc : processLine p rm handler proc s line = .cont s') : Inv p s' :=
  Inv_tryDefs p rm handler proc line s p.RecordDefinitions s' h hc

theorem Inv_runLines (p : Parser) (rm : RegexpMatch)
    (handler : ErrorHandler) (proc : RecordProcessor)
    (lines : List (List Char)) :
    ∀ (s s' : ParseState), Inv p s →
      runLines p rm handler proc lines s = .finished s' → Inv p s' := by
  induction lines with
  | nil =>
    intro s s' h hrun
    unfold runLines at hrun
    cases hrun
    exact h
  | cons l ls ih =>
    intro s s' h hrun
    unfold runLines at hrun
    cases hstep : processLine p rm handler proc
        { s with lineNum := s.lineNum + 1 } l with
    | cont s1 =>
      rw [hstep] at hrun
      exact ih s1 s' (Inv_processLine p rm handler proc { s with lineNum := s.lineNum + 1 } s1 l h hstep) hrun
    | abort s1 e =>
      rw [hstep] at hrun
      exact RunResult.noConfusion hrun
    | panic s1 =>
      rw [hstep] at hrun
      exact RunResult.noConfusion hrun

/-! ## Claim C4: reachability of emitted units through the engine state -/

/-- C4 counterexample: on input H, L, S, H the unit rooted at record 0 is
emitted (trace `[some 0, …]`), with record 1 (the L) inside it as its
child; record 1 is still reachable through `lastRecords` afterwards, and
the fifth line S of the input H, L, S, H, S is appended to record 1's
`Children` — the engine mutates a record inside the already-emitted unit. -/
theorem c4_counterexample :
    (parseFinalState (pHLS.Parse literalPrefixRegexp DefaultErrorHandler
      procNil [['H'], ['L'], ['S'], ['H']])).emitted = [some 0, some 3] ∧
    ((parseFinalState (pHLS.Parse literalPrefixRegexp DefaultErrorHandler
      procNil [['H'], ['L'], ['S'], ['H']])).heap[1]?).map
        RecordData.Children = some [2] ∧
    ((parseFinalState (pHLS.Parse literalPrefixRegexp DefaultErrorHandler
      procNil [['H'], ['L'], ['S'], ['H'], ['S']])).heap[1]?).map
        RecordData.Children = some [2, 4] ∧
    ((parseFinalState (pHLS.Parse literalPrefixRegexp DefaultErrorHandler
      procNil [['H'], ['L'], ['S'], ['H'], ['S']])).heap[0]?).map
        RecordData.Children = some [1] ∧
    mapLookup (parseFinalState (pHLS.Parse literalPrefixRegexp
      DefaultErrorHandler procNil [['H'], ['L'], ['S'], ['H'], ['S']])).lastRecords
      "L" = some 1 := by
  decide

/-! ## Claim C1: split hand-off and terminal emission -/

/-- C4 (amended): after a unit is emitted, its root is no longer reachable
through the engine's internal state — it is never the current `splitRec`
again and no `lastRecords` lookup yields it, so no later record is attached
to the emitted root; records strictly inside the emitted subtree, however,
remain reachable through `lastRecords` (see the counterexample). -/
theorem c4_emittedRootUnreachable (p : Parser) (rm : RegexpMatch)
    (handler : ErrorHandler) (proc : RecordProcessor)
    (lines : List (List Char)) (s : ParseState)
    (hrun : runLines p rm handler proc lines initState = .finished s) :
    ∀ r, some r ∈ s.emitted →
      s.splitRec ≠ some r ∧ ∀ k, mapLookup s.lastRecords k ≠ some r := by
  have hinv := Inv_runLines p rm handler proc lines initState s
    (Inv_initState p) hrun
  obtain ⟨c1, c2, c3, c4, c5⟩ := hinv
  intro r hr
  refine ⟨c4 r hr, fun k hk => ?_⟩
  have hmem := mapLookup_mem _ _ _ hk
  obtain ⟨d, hd, hdn⟩ := c1 (k, r) hmem
  obtain ⟨d', hd', hdn'⟩ := c5 r hr
  rw [hd] at hd'
  have hdd : d = d' := Option.some.inj hd'
  have hdn2 : d.Name = k := hdn
  have hks : k = p.SplitOnRecordName := by rw [← hdn2, hdd, hdn']
  rw [hks, c2] at hk
  exact (c4 r hr) hk

/-- Witness for C4's amended theorem on the concrete four-line run: the
emitted root 0 is neither the current `splitRec` nor reachable under the
keys "H", "L", "S". -/
theorem c4_emittedRootUnreachable_witness :
    (⟨[⟨"H", [], none, [1], true⟩, ⟨"L", [], none, [2], true⟩,
       ⟨"S", [], none, [], true⟩, ⟨"H", [], none, [], true⟩],
      [("H", 3), ("S", 2), ("L", 1), ("H", 0)], some 3, [some 0], 4⟩
      : ParseState).splitRec ≠ some 0 ∧
    mapLookup [("H", 3), ("S", 2), ("L", 1), ("H", 0)] "H" ≠ some 0 ∧
    mapLookup [("H", 3), ("S", 2), ("L", 1), ("H", 0)] "L" ≠ some 0 := by
  have h := c4_emittedRootUnreachable pHLS literalPrefixRegexp
    DefaultErrorHandler procNil [['H'], ['L'], ['S'], ['H']]
    ⟨[⟨"H", [], none, [1], true⟩, ⟨"L", [], none, [2], true⟩,
      ⟨"S", [], none, [], true⟩, ⟨"H", [], none, [], true⟩],
     [("H", 3), ("S", 2), ("L", 1), ("H", 0)], some 3, [some 0], 4⟩
    (by decide) 0 (by decide)
  exact ⟨h.1, h.2 "H", h.2 "L"⟩

/-- C1: when a line is recognized as the split type while a split record is
in flight, that previous record is handed to the RecordProcessor first and
only then is the new record installed (on a processor error the old record
has been emitted but the new one is not installed); with no record in
flight there is no emission; and at end of input `Parse` hands `splitRec`
to the RecordProcessor exactly once more — the null pointer when no line
ever produced a split-named record, which is guaranteed whenever no heap
record bears the split name. -/
theorem c1_split_emission (p : Parser) :
    (∀ (proc : RecordProcessor) (rdName : String) (n : Nat) (s : ParseState)
        (r : Nat), rdName = p.SplitOnRecordName → s.splitRec = some r →
      (splitPhase p proc rdName n s).state.emitted = s.emitted ++ [some r] ∧
      (proc (some r) = none →
        splitPhase p proc rdName n s = .cont { s with
            emitted := s.emitted ++ [some r]
            splitRec := some n
            heap := heapModify s.heap n
              (fun d => { d with isWithinSplit := true }) }) ∧
      (∀ e, proc (some r) = some e →
        splitPhase p proc rdName n s =
          .abort { s with emitted := s.emitted ++ [some r] } e)) ∧
    (∀ (proc : RecordProcessor) (rdName : String) (n : Nat) (s : ParseState),
      rdName = p.SplitOnRecordName → s.splitRec = none →
      splitPhase p proc rdName n s = .cont { s with
          splitRec := some n
          heap := heapModify s.heap n
            (fun d => { d with isWithinSplit := true }) }) ∧
    (∀ (rm : RegexpMatch) (handler : ErrorHandler) (proc : RecordProcessor)
        (lines : List (List Char)) (s : ParseState),
      runLines p rm handler proc lines initState = .finished s →
      p.Parse rm handler proc lines =
        .ret { s with emitted := s.emitted ++ [s.splitRec] }
          (handler (proc s.splitRec))) ∧
    (∀ (rm : RegexpMatch) (handler : ErrorHandler) (proc : RecordProcessor)
        (lines : List (List Char)) (s : ParseState),
      runLines p rm handler proc lines initState = .finished s →
      (∀ d ∈ s.heap, d.Name ≠ p.SplitOnRecordName) → s.splitRec = none) := by
  refine ⟨?_, ?_, ?_, ?_⟩
  · intro proc rdName n s r hname hsr
    refine ⟨?_, ?_, ?_⟩
    · unfold splitPhase
      simp only [if_pos hname, hsr]
      cases hp : proc (some r) <;> simp only [hp] <;> rfl
    · intro hp
      unfold splitPhase
      simp only [if_pos hname, hsr, hp]
    · intro e hp
      unfold splitPhase
      simp only [if_pos hname, hsr, hp]
  · intro proc rdName n s hname hsr
    unfold splitPhase
    simp only [if_pos hname, hsr]
  · intro rm handler proc lines s hrun
    unfold Parser.Parse
    rw [hrun]
  · intro rm handler proc lines s hrun hnone
    have hinv := Inv_runLines p rm handler proc lines initState s
      (Inv_initState p) hrun
    obtain ⟨c1, c2, _, _, _⟩ := hinv
    cases hsr : s.splitRec with
    | none => rfl
    | some r =>
      exfalso
      rw [hsr] at c2
      have hmem := mapLookup_mem _ _ _ c2
      obtain ⟨d, hd, hdn⟩ := c1 _ hmem
      exact hnone d (List.getElem?_mem hd) hdn

/-- Witness for C1 at concrete inputs: a second split record hands the
first one off before being installed; an empty input hands off the null
split record exactly once; a single split line's record is handed off when
the input is exhausted. -/
theorem c1_split_emission_witness :
    splitPhase pHLS procNil "H" 1
      ⟨[⟨"H", [], none, [], true⟩, ⟨"H", [], none, [], false⟩],
       [("H", 1), ("H", 0)], some 0, [], 2⟩ =
      .cont ⟨[⟨"H", [], none, [], true⟩, ⟨"H", [], none, [], true⟩],
        [("H", 1), ("H", 0)], some 1, [some 0], 2⟩ ∧
    pHLS.Parse literalPrefixRegexp DefaultErrorHandler procNil [] =
      .ret ⟨[], [], none, [none], 0⟩ none ∧
    pBoth.Parse literalPrefixRegexp DefaultErrorHandler procNil [['H']] =
      .ret ⟨[⟨"H1", [], none, [], true⟩], [("H1", 0)], some 0, [some 0], 1⟩
        none := by
  refine ⟨?_, ?_, ?_⟩
  · have h := ((c1_split_emission pHLS).1 procNil "H" 1
      ⟨[⟨"H", [], none, [], true⟩, ⟨"H", [], none, [], false⟩],
       [("H", 1), ("H", 0)], some 0, [], 2⟩ 0 rfl rfl).2.1 rfl
    exact h.trans (by decide)
  · have h := (c1_split_emission pHLS).2.2.1 literalPrefixRegexp
      DefaultErrorHandler procNil [] initState rfl
    exact h.trans (by decide)
  · have h := (c1_split_emission pBoth).2.2.1 literalPrefixRegexp
      DefaultErrorHandler procNil [['H']]
      ⟨[⟨"H1", [], none, [], true⟩], [("H1", 0)], some 0, [], 1⟩ (by decide)
    exact h.trans (by decide)

/-! ## Claim C9: unregistered names fail at schema load, before scanning -/

theorem unmarshalFieldDefinition_err (ftReg : FieldTypeRegistry)
    (fd : RawFieldDefinition) (h : regLookup ftReg fd.TypeName = none) :
    ∃ m, unmarshalFieldDefinition ftReg fd = .error m := by
  unfold unmarshalFieldDefinition GetFieldTypeUnmarshalFunc
  rw [h]
  exact ⟨_, rfl⟩

theorem unmarshalFieldDefinition_ok (ftReg : FieldTypeRegistry)
    (fd : RawFieldDefinition) (x : FieldDefinition)
    (h : unmarshalFieldDefinition ftReg fd = .ok x) :
    ∃ f, regLookup ftReg fd.TypeName = some f := by
  unfold unmarshalFieldDefinition GetFieldTypeUnmarshalFunc at h
  cases hlk : regLookup ftReg fd.TypeName with
  | none =>
    simp only [hlk] at h
    exact Except.noConfusion h
  | some f => exact ⟨f, rfl⟩

theorem unmarshalFieldDefinitions_err (ftReg : FieldTypeRegistry)
    (fds : List RawFieldDefinition) (fd : RawFieldDefinition)
    (hmem : fd ∈ fds) (h : regLookup ftReg fd.TypeName = none) :
    ∃ m, unmarshalFieldDefinitions ftReg fds = .error m := by
  induction fds with
  | nil => exact absurd hmem (List.not_mem_nil _)
  | cons r rs ih =>
    unfold unmarshalFieldDefinitions
    rcases List.mem_cons.mp hmem with h0 | h0
    · subst h0
      obtain ⟨m, hm⟩ := unmarshalFieldDefinition_err ftReg fd h
      rw [hm]
      exact ⟨m, rfl⟩
    · cases hr : unmarshalFieldDefinition ftReg r with
      | error e => exact ⟨e, rfl⟩
      | ok fd' =>
        obtain ⟨m, hm⟩ := ih h0
        rw [hm]
        exact ⟨m, rfl⟩

theorem unmarshalFieldDefinitions_ok (ftReg : FieldTypeRegistry)
    (fds : List RawFieldDefinition) (xs : List FieldDefinition)
    (h : unmarshalFieldDefinitions ftReg fds = .ok xs) :
    ∀ fd ∈ fds, ∃ f, regLookup ftReg fd.TypeName = some f := by
  induction fds generalizing xs with
  | nil => exact fun fd hmem => absurd hmem (List.not_mem_nil _)
  | cons r rs ih =>
    intro fd hmem
    unfold unmarshalFieldDefinitions at h
    cases hr : unmarshalFieldDefinition ftReg r with
    | error e =>
      rw [hr] at h
      exact Except.noConfusion h
    | ok fd' =>
      rw [hr] at h
      cases hrs : unmarshalFieldDefinitions ftReg rs with
      | error e =>
        rw [hrs] at h
        exact Except.noConfusion h
      | ok xs' =>
        rcases List.mem_cons.mp hmem with h0 | h0
        · subst h0
          exact unmarshalFieldDefinition_ok ftReg fd fd' hr
        · exact ih xs' hrs fd h0

theorem unmarshalRecordDefinition_err (rReg : RecordReaderRegistry)
    (ftReg : FieldTypeRegistry) (rd : RawRecordDefinition)
    (h : regLookup rReg rd.ReaderName = none ∨
      ∃ fd ∈ rd.FieldDefinitions, regLookup ftReg fd.TypeName = none) :
    ∃ m, unmarshalRecordDefinition rReg ftReg rd = .error m := by
  unfold unmarshalRecordDefinition GetRecordReaderUnmarshalFunc
  rcases h with h | ⟨fd, hmem, hfd⟩
  · rw [h]
    exact ⟨_, rfl⟩
  · cases hlk : regLookup rReg rd.ReaderName with
    | none => exact ⟨_, rfl⟩
    | some f =>
      simp only [hlk]
      obtain ⟨m, hm⟩ := unmarshalFieldDefinitions_err ftReg
        rd.FieldDefinitions fd hmem hfd
      simp only [hm]
      exact ⟨m, rfl⟩

theorem unmarshalRecordDefinition_ok (rReg : RecordReaderRegistry)
    (ftReg : FieldTypeRegistry) (rd : RawRecordDefinition)
    (x : RecordDefinition)
    (h : unmarshalRecordDefinition rReg ftReg rd = .ok x) :
    (∃ f, regLookup rReg rd.ReaderName = some f) ∧
    ∀ fd ∈ rd.FieldDefinitions, ∃ f, regLookup ftReg fd.TypeName = some f := by
  unfold unmarshalRecordDefinition GetRecordReaderUnmarshalFunc at h
  cases hlk : regLookup rReg rd.ReaderName with
  | none =>
    simp only [hlk] at h
    exact Except.noConfusion h
  | some f =>
    simp only [hlk] at h
    cases hfds : unmarshalFieldDefinitions ftReg rd.FieldDefinitions with
    | error e =>
      simp only [hfds] at h
      exact Except.noConfusion h
    | ok fds =>
      exact ⟨⟨f, rfl⟩, unmarshalFieldDefinitions_ok ftReg _ fds hfds⟩

theorem unmarshalRecordDefinitions_err (rReg : RecordReaderRegistry)
    (ftReg : FieldTypeRegistry) (rds : List RawRecordDefinition)
    (rd : RawRecordDefinition) (hmem : rd ∈ rds)
    (h : regLookup rReg rd.ReaderName = none ∨
      ∃ fd ∈ rd.FieldDefinitions, regLookup ftReg fd.TypeName = none) :
    ∃ m, unmarshalRecordDefinitions rReg ftReg rds = .error m := by
  induction rds with
  | nil => exact absurd hmem (List.not_mem_nil _)
  | cons r rs ih =>
    unfold unmarshalRecordDefinitions
    rcases List.mem_cons.mp hmem with h0 | h0
    · subst h0
      obtain ⟨m, hm⟩ := unmarshalRecordDefinition_err rReg ftReg rd h
      rw [hm]
      exact ⟨m, rfl⟩
    · cases hr : unmarshalRecordDefinition rReg ftReg r with
      | error e => exact ⟨e, rfl⟩
      | ok rd' =>
        obtain ⟨m, hm⟩ := ih h0
        rw [hm]
        exact ⟨m, rfl⟩

theorem unmarshalRecordDefinitions_ok (rReg : RecordReaderRegistry)
    (ftReg : FieldTypeRegistry) (rds : List RawRecordDefinition)
    (xs : List RecordDefinition)
    (h : unmarshalRecordDefinitions rReg ftReg rds = .ok xs) :
    ∀ rd ∈ rds, (∃ f, regLookup rReg rd.ReaderName = some f) ∧
      ∀ fd ∈ rd.FieldDefinitions, ∃ f, regLookup ftReg fd.TypeName = some f := by
  induction rds generalizing xs with
  | nil => exact fun rd hmem => absurd hmem (List.not_mem_nil _)
  | cons r rs ih =>
    intro rd hmem
    unfold unmarshalRecordDefinitions at h
    cases hr : unmarshalRecordDefinition rReg ftReg r with
    | error e =>
      rw [hr] at h
      exact Except.noConfusion h
    | ok rd' =>
      rw [hr] at h
      cases hrs : unmarshalRecordDefinitions rReg ftReg rs with
      | error e =>
        rw [hrs] at h
        exact Except.noConfusion h
      | ok xs' =>
        rcases List.mem_cons.mp hmem with h0 | h0
        · subst h0
          exact unmarshalRecordDefinition_ok rReg ftReg rd rd' hr
        · exact ih xs' hrs rd h0

/-- C9: a schema that references an unregistered RecordReader or FieldType
name makes `NewParser` fail with a `ConfigurationError` — during schema
loading, before any input line exists; conversely a successfully
constructed parser resolved every name at load time, and `Parse` itself
takes no registry, so registry lookup cannot fail during line scanning. -/
theorem c9_registry_lookup (rReg : RecordReaderRegistry)
    (ftReg : FieldTypeRegistry) (config : RawParserConfig) :
    ((∃ rd ∈ config.RecordDefinitions,
        regLookup rReg rd.ReaderName = none ∨
        ∃ fd ∈ rd.FieldDefinitions, regLookup ftReg fd.TypeName = none) →
      ∃ msg, NewParser rReg ftReg config = .error (.config msg)) ∧
    (∀ parser, NewParser rReg ftReg config = .ok parser →
      ∀ rd ∈ config.RecordDefinitions,
        (∃ f, regLookup rReg rd.ReaderName = some f) ∧
        ∀ fd ∈ rd.FieldDefinitions,
          ∃ f, regLookup ftReg fd.TypeName = some f) := by
  constructor
  · rintro ⟨rd, hmem, hbad⟩
    obtain ⟨m, hm⟩ := unmarshalRecordDefinitions_err rReg ftReg
      config.RecordDefinitions rd hmem hbad
    unfold NewParser
    rw [hm]
    exact ⟨m, rfl⟩
  · intro parser h rd hmem
    unfold NewParser at h
    cases hds : unmarshalRecordDefinitions rReg ftReg
        config.RecordDefinitions with
    | error e =>
      rw [hds] at h
      exact Except.noConfusion h
    | ok defs =>
      exact unmarshalRecordDefinitions_ok rReg ftReg _ defs hds rd hmem

/-- Witness for C9: the schema referencing the unregistered reader name
"Delimited" fails to load with a `ConfigurationError`, and a successfully
loaded schema resolved its field type name "String" in the registry. -/
theorem c9_registry_lookup_witness :
    isConfigErr (NewParser c9ReaderReg c9FtReg c9BadConfig) = true ∧
    (regLookup c9FtReg "String").isSome = true := by
  constructor
  · obtain ⟨msg, hm⟩ := (c9_registry_lookup c9ReaderReg c9FtReg
      c9BadConfig).1 ⟨⟨"H", "", "Delimited", "", "", []⟩, by decide,
        Or.inl rfl⟩
    rw [hm]
    rfl
  · obtain ⟨f, hf⟩ := ((c9_registry_lookup c9ReaderReg c9FtReg
      c9GoodConfig).2 _ rfl ⟨"H", "", "Empty", "", "", [⟨"F1", "String", ""⟩]⟩
      (by decide)).2 ⟨"F1", "String", ""⟩ (by decide)
    rw [hf]
    rfl

end StructuredFileReader
